import Mathlib

/- Verification of the incremental workspace crawler, its content-hash
change-detection cache (fileHashCache.ts), and the weighted multi-stage
progress aggregator (progressManager.ts) of the agentic-wiki extension.

The definitions below are shallow embeddings of the TypeScript functions.
Effects are made explicit: the md5 digest is an abstract `hash` function
parameter, `fs.readFile` is a `disk : String → Option String` parameter
(`none` models a read error), `JSON.parse` is a `parse` parameter (`none`
models a parse exception), glob matching (`minimatch`) and `.gitignore`
matching are abstract boolean matchers, and `Date.now()` is an explicit
`now` argument. JS objects used as string-keyed dictionaries are modelled
as insertion-ordered association lists. Functions that count disk reads
carry an `R` suffix; the plain name projects away the instrumentation. -/

/-- An entry of the file hash cache: content digest plus last-seen
timestamp, from the `FileHashCache` interface of fileHashCache.ts. -/
structure FileHashEntry where
  hash : String
  timestamp : Int
deriving DecidableEq

/-- The persisted hash-store document: workspace id to file path to entry. -/
abbrev FileHashCache := List (String × List (String × FileHashEntry))

/-- Insert or overwrite a key in an association list the way JS object
assignment does: an existing key keeps its position, a new key is appended. -/
def ainsert {α : Type} (l : List (String × α)) (k : String) (v : α) :
    List (String × α) :=
  if l.any (fun x => x.1 == k) then
    l.map (fun x => if x.1 == k then (k, v) else x)
  else l ++ [(k, v)]

/-- Whether a string consists only of whitespace; models the JS emptiness
check `!data.trim()` of readFileHashCache (a string is falsy exactly when
it is empty, and `trim` strips whitespace). -/
def isBlank (s : String) : Bool := s.data.all (fun c => c.isWhitespace)

/-- Shallow embedding of `readFileHashCache` (fileHashCache.ts, lines
46-77). `initialized` models a non-empty `fileHashCachePath`, `fileState`
is the cache file content (`none` when the `fs.access` check fails), and
`parse` models `JSON.parse` (`none` when it throws, which the source
catches). Every failure path resolves to the empty document. -/
def readFileHashCache (initialized : Bool) (fileState : Option String)
    (parse : String → Option FileHashCache) : FileHashCache :=
  if initialized = false then []
  else
    match fileState with
    | none => []
    | some data => if isBlank data then [] else (parse data).getD []

/-- Shallow embedding of `calculateFileHash` (fileHashCache.ts, lines
116-125), instrumented with the number of disk reads attempted. The source
computes `content || await fs.readFile(filePath)`: an absent or
empty-string `content` falls through to a disk read because the empty
string is falsy in JS; a failing read makes the function throw (`none`). -/
def calculateFileHashR (hash : String → String) (disk : String → Option String)
    (filePath : String) (content : Option String) : Option String × Nat :=
  match content with
  | some c => if c = "" then ((disk filePath).map hash, 1) else (some (hash c), 0)
  | none => ((disk filePath).map hash, 1)

/-- `calculateFileHash` without the read-count instrumentation. -/
def calculateFileHash (hash : String → String) (disk : String → Option String)
    (filePath : String) (content : Option String) : Option String :=
  (calculateFileHashR hash disk filePath content).1

/-- Entry lookup for `(workspaceId, filePath)`: the source reads
`cache[workspaceId] || {}` and then indexes with the file path. -/
def lookupEntry (cache : FileHashCache) (workspaceId filePath : String) :
    Option FileHashEntry :=
  List.lookup filePath ((List.lookup workspaceId cache).getD [])

/-- Shallow embedding of `hasFileChanged` (fileHashCache.ts, lines 134-149)
with read count: `true` when no entry exists, when the digest computation
throws, or when the digest differs from the stored one. -/
def hasFileChangedR (hash : String → String) (disk : String → Option String)
    (cache : FileHashCache) (workspaceId filePath : String)
    (content : Option String) : Bool × Nat :=
  match lookupEntry cache workspaceId filePath with
  | none => (true, 0)
  | some fileCache =>
      match calculateFileHashR hash disk filePath content with
      | (none, r) => (true, r)
      | (some currentHash, r) => (currentHash != fileCache.hash, r)

/-- `hasFileChanged` without the read-count instrumentation. -/
def hasFileChanged (hash : String → String) (disk : String → Option String)
    (cache : FileHashCache) (workspaceId filePath : String)
    (content : Option String) : Bool :=
  (hasFileChangedR hash disk cache workspaceId filePath content).1

/-- Shallow embedding of `updateFileHash` (fileHashCache.ts, lines 157-172)
with read count. A throwing `calculateFileHash` propagates (`none`) before
any document mutation is persisted. -/
def updateFileHashR (hash : String → String) (disk : String → Option String)
    (now : Int) (cache : FileHashCache) (workspaceId filePath : String)
    (content : Option String) : Option FileHashCache × Nat :=
  match calculateFileHashR hash disk filePath content with
  | (none, r) => (none, r)
  | (some h, r) =>
      (some (ainsert cache workspaceId
        (ainsert ((List.lookup workspaceId cache).getD []) filePath ⟨h, now⟩)), r)

/-- `updateFileHash` without the read-count instrumentation. -/
def updateFileHash (hash : String → String) (disk : String → Option String)
    (now : Int) (cache : FileHashCache) (workspaceId filePath : String)
    (content : Option String) : Option FileHashCache :=
  (updateFileHashR hash disk now cache workspaceId filePath content).1

/-- The entry-deletion loop of `cleanupFileHashCache` (fileHashCache.ts,
lines 187-194) keeps exactly the entries with
`now - fileCache.timestamp ≤ maxAgeMs`. -/
def sweepWorkspace (now maxAgeMs : Int)
    (workspaceCache : List (String × FileHashEntry)) :
    List (String × FileHashEntry) :=
  workspaceCache.filter (fun x => decide (now - x.2.timestamp ≤ maxAgeMs))

/-- Shallow embedding of `cleanupFileHashCache` (fileHashCache.ts, lines
178-206) acting on the loaded document: the cleaned in-memory document
(workspaces left empty are deleted) together with `entriesRemoved`. -/
def cleanupFileHashCache (now maxAgeMs : Int) (cache : FileHashCache) :
    FileHashCache × Nat :=
  ((cache.map (fun w => (w.1, sweepWorkspace now maxAgeMs w.2))).filter
      (fun w => decide (w.2 ≠ [])),
   (cache.map (fun w => w.2.length - (sweepWorkspace now maxAgeMs w.2).length)).sum)

/-- The document persisted after the sweep: `writeFileHashCache` runs only
when `entriesRemoved > 0`, otherwise the previously persisted document is
left untouched. The boolean reports whether a save was performed. -/
def sweepPersisted (now maxAgeMs : Int) (cache : FileHashCache) :
    FileHashCache × Bool :=
  if 0 < (cleanupFileHashCache now maxAgeMs cache).2 then
    ((cleanupFileHashCache now maxAgeMs cache).1, true)
  else (cache, false)

/-- An entry for `(w, p)` with value `e` occurs in the document. -/
def entryMem (cache : FileHashCache) (w p : String) (e : FileHashEntry) : Prop :=
  ∃ inner, (w, inner) ∈ cache ∧ (p, e) ∈ inner

/-- A file record produced by the crawler: `{ path: relativePath, content }`. -/
structure FileRecord where
  path : String
  content : String
deriving DecidableEq

/-- Crawl result: emitted files plus the unchanged counter, which is set
only when incremental mode is active. -/
structure CrawlResult where
  files : List FileRecord
  unchanged : Option Nat
deriving DecidableEq

mutual
/-- A file-system entry as `collectFilePaths` sees it: `fs.stat` classifies
every entry as file or directory. Content and size live in separate
`disk`/`size` maps keyed by absolute path, because the second pass
re-queries the file system. -/
inductive FSEntry where
  | file (name : String)
  | dir (name : String) (children : FSList)
deriving DecidableEq
/-- Directory entries in `fs.readdir` order. -/
inductive FSList where
  | nil
  | cons (e : FSEntry) (es : FSList)
deriving DecidableEq
end

/-- `path.join(base, name)` as used by the traversal. -/
def joinPath (base name : String) : String :=
  if base = "" then name else base ++ ("/") ++ name

/-- The path an entry is matched against (`relPath` in the source): the
root-relative path when `useRelativePaths` is set, the absolute item path
otherwise. -/
def entryRel (useRel : Bool) (pabs prel name : String) : String :=
  if useRel then joinPath prel name else joinPath pabs name

/-- The exclusion test of `collectFilePaths` (crawler, lines 147-163):
first the `.gitignore` rules (`ig`, `none` when no ignore file was
loaded), then — only when not already excluded — the exclusion globs
(`mm` models `minimatch`). -/
def isExcluded (ig : Option (String → Bool)) (mm : String → String → Bool)
    (excludePatterns : Option (List String)) (relPath : String) : Bool :=
  if (match ig with | some g => g relPath | none => false) then true
  else match excludePatterns with
    | some ps => ps.any (fun pattern => mm relPath pattern)
    | none => false

/-- The inclusion test (crawler, lines 176-187): everything is included
when the include list is absent or contains the sentinel star pattern;
otherwise at least one glob must match. -/
def isIncluded (mm : String → String → Bool)
    (includePatterns : Option (List String)) (relPath : String) : Bool :=
  match includePatterns with
  | none => true
  | some ps =>
      if ps.contains ("*") then true
      else ps.any (fun pattern => mm relPath pattern)

mutual
/-- One step of `collectFilePaths` (crawler, lines 137-197) on a single
directory entry, `pabs`/`prel` being the absolute and root-relative paths
of the enclosing directory. Excluded directories are not descended into;
files surviving exclusion are tested against the inclusion globs and
emitted as `(itemPath, relPath)` candidates. -/
def collectEntry (ig : Option (String → Bool)) (mm : String → String → Bool)
    (excludePatterns includePatterns : Option (List String)) (useRel : Bool) :
    FSEntry → String → String → List (String × String)
  | .file name, pabs, prel =>
      if isExcluded ig mm excludePatterns (entryRel useRel pabs prel name) then []
      else if isIncluded mm includePatterns (entryRel useRel pabs prel name) then
        [(joinPath pabs name, entryRel useRel pabs prel name)]
      else []
  | .dir name children, pabs, prel =>
      if isExcluded ig mm excludePatterns (entryRel useRel pabs prel name) then []
      else collectEntries ig mm excludePatterns includePatterns useRel children
        (joinPath pabs name) (joinPath prel name)
/-- `collectFilePaths` over the entries of one directory, in `readdir`
order, depth first. -/
def collectEntries (ig : Option (String → Bool)) (mm : String → String → Bool)
    (excludePatterns includePatterns : Option (List String)) (useRel : Bool) :
    FSList → String → String → List (String × String)
  | .nil, _, _ => []
  | .cons e es, pabs, prel =>
      collectEntry ig mm excludePatterns includePatterns useRel e pabs prel ++
        collectEntries ig mm excludePatterns includePatterns useRel es pabs prel
end

/-- The first pass `collectFilePaths(directory, directory, useRel)`: the
root's own entries, the root itself being subject to no filtering. -/
def collectFilePaths (ig : Option (String → Bool)) (mm : String → String → Bool)
    (excludePatterns includePatterns : Option (List String)) (useRel : Bool)
    (root : String) (entries : FSList) : List (String × String) :=
  collectEntries ig mm excludePatterns includePatterns useRel entries root ""

/-- The `maxFileSize && stats.size > maxFileSize` skip of the second pass
(crawler, lines 90-93): an absent or zero max size is falsy and disables
the check. -/
def exceedsMaxSize (size : String → Nat) (maxFileSize : Option Nat)
    (p : String) : Bool :=
  match maxFileSize with
  | some m => if m = 0 then false else decide (size p > m)
  | none => false

/-- Per-candidate processing of `crawlLocalFilesAsync` (crawler, lines
81-119): the emitted record (if any), the cache after the step, the growth
of the unchanged counter, and the number of disk reads attempted. The
digest check `hasFileChanged(workspaceId, fileInfo.path)` is called without
content, so it performs its own disk read; the content of the emitted
record comes from a second `fs.readFile`, and that content is what
`updateFileHash` receives. A read failure is caught and drops the file. -/
def processOneFile (hash : String → String) (disk : String → Option String)
    (size : String → Nat) (maxFileSize : Option Nat) (now : Int)
    (incremental : Bool) (workspaceId : String) (cache : FileHashCache)
    (fileInfo : String × String) :
    Option FileRecord × FileHashCache × Nat × Nat :=
  if exceedsMaxSize size maxFileSize fileInfo.1 then (none, cache, 0, 0)
  else if incremental then
    match hasFileChangedR hash disk cache workspaceId fileInfo.1 none with
    | (false, r1) => (none, cache, 1, r1)
    | (true, r1) =>
        match disk fileInfo.1 with
        | none => (none, cache, 0, r1 + 1)
        | some content =>
            match updateFileHashR hash disk now cache workspaceId fileInfo.1
                (some content) with
            | (none, r2) => (none, cache, 0, r1 + 1 + r2)
            | (some cache2, r2) =>
                (some ⟨fileInfo.2, content⟩, cache2, 0, r1 + 1 + r2)
  else
    match disk fileInfo.1 with
    | none => (none, cache, 0, 1)
    | some content => (some ⟨fileInfo.2, content⟩, cache, 0, 1)

/-- The batched second pass, sequentialized: `Promise.all` keeps results in
order and they are appended batch by batch, so the emitted list is the
ordered concatenation; the cache is threaded through the per-file updates. -/
def processFiles (hash : String → String) (disk : String → Option String)
    (size : String → Nat) (maxFileSize : Option Nat) (now : Int)
    (incremental : Bool) (workspaceId : String) :
    FileHashCache → List (String × String) →
      List FileRecord × FileHashCache × Nat
  | cache, [] => ([], cache, 0)
  | cache, fi :: rest =>
      let step := processOneFile hash disk size maxFileSize now incremental
        workspaceId cache fi
      let restRes := processFiles hash disk size maxFileSize now incremental
        workspaceId step.2.1 rest
      (step.1.toList ++ restRes.1, restRes.2.1, step.2.2.1 + restRes.2.2)

/-- `path.basename`, for the workspace-id fallback, on POSIX-style paths. -/
def basenameOf (p : String) : String := ((p.splitOn ("/")).getLast?).getD p

/-- Shallow embedding of `crawlLocalFilesAsync` (crawler, lines 27-198) on
an existing root directory: collect the candidate paths, then process
them; when incremental mode is requested without a workspace id, the
root's base name is substituted. Returns the crawl result together with
the final cache document. -/
def crawlLocalFilesAsync (hash : String → String) (disk : String → Option String)
    (size : String → Nat) (ig : Option (String → Bool))
    (mm : String → String → Bool) (root : String) (entries : FSList)
    (includePatterns excludePatterns : Option (List String))
    (maxFileSize : Option Nat) (useRel : Bool) (incremental : Bool)
    (workspaceId : Option String) (now : Int) (cache : FileHashCache) :
    CrawlResult × FileHashCache :=
  let pending := collectFilePaths ig mm excludePatterns includePatterns useRel
    root entries
  let ws := workspaceId.getD (basenameOf root)
  let res := processFiles hash disk size maxFileSize now incremental ws cache
    pending
  (⟨res.1, if incremental then some res.2.2 else none⟩, res.2.1)

/-- The errors `FetchRepoNode.exec` can throw. -/
inductive FetchError where
  | cancelled
  | noFilesFound (dir : String)
deriving DecidableEq

/-- Shallow embedding of `FetchRepoNode.exec` (fetchRepoNode.ts, lines
26-75): the node crawls with relative paths, no incremental mode and no
workspace id; a crawl that comes back with an empty file list is turned
into the error the spec calls EmptyResultError (`No files found in
directory`). -/
def fetchRepoExec (hash : String → String) (disk : String → Option String)
    (size : String → Nat) (ig : Option (String → Bool))
    (mm : String → String → Bool) (localDir : String) (entries : FSList)
    (includePatterns excludePatterns : Option (List String))
    (maxFileSize : Option Nat) (cancelled : Bool) (now : Int)
    (cache : FileHashCache) : Except FetchError (List FileRecord) :=
  if cancelled then .error .cancelled
  else
    let result := (crawlLocalFilesAsync hash disk size ig mm localDir entries
      includePatterns excludePatterns maxFileSize true false none now cache).1
    if result.files.length = 0 then .error (.noFilesFound localDir)
    else .ok result.files

/-- The stages of the wiki generation pipeline in declared order, from the
ProcessStage enumeration of progressManager.ts. -/
inductive ProcessStage where
  | initialStage
  | fetchingFiles
  | identifyingAbstractions
  | analyzingRelationships
  | orderingChapters
  | writingChapters
  | combiningTutorial
  | completed
deriving DecidableEq

/-- The declared stage order, as `Object.values(ProcessStage)` yields it. -/
def stageList : List ProcessStage :=
  [.initialStage, .fetchingFiles, .identifyingAbstractions,
   .analyzingRelationships, .orderingChapters, .writingChapters,
   .combiningTutorial, .completed]

/-- The constant STAGE_WEIGHTS table; the terminal stage has weight zero. -/
def STAGE_WEIGHTS : ProcessStage → ℚ
  | .initialStage => 5
  | .fetchingFiles => 15
  | .identifyingAbstractions => 20
  | .analyzingRelationships => 15
  | .orderingChapters => 10
  | .writingChapters => 25
  | .combiningTutorial => 10
  | .completed => 0

/-- `calculateTotalProgress`: the renormalized weighted aggregate
`(Σ stageProgress/100 · weight) / (Σ weight) · 100` over all stages. -/
def calculateTotalProgress (sp : ProcessStage → ℚ) : ℚ :=
  (stageList.map (fun s => sp s / 100 * STAGE_WEIGHTS s)).sum /
    (stageList.map (fun s => STAGE_WEIGHTS s)).sum * 100

/-- The mutable state of ProgressManager: the current stage, the per-stage
recorded percentage map, the aggregate, and the aggregate last reported to
the sink. -/
structure ProgressState where
  currentStage : ProcessStage
  stageProgress : ProcessStage → ℚ
  totalProgress : ℚ
  lastReported : ℚ

/-- The state established by the constructor and by `reset()`. -/
def resetState : ProgressState :=
  ⟨.initialStage, fun _ => 0, 0, 0⟩

/-- Pointwise update of the stage-progress table (`stageProgress.set`). -/
def setStage (sp : ProcessStage → ℚ) (s : ProcessStage) (v : ℚ) :
    ProcessStage → ℚ :=
  fun t => if t = s then v else sp t

/-- The clamp of `updateStageProgress`: percentages below 0 become 0,
above 100 become 100. -/
def clampPercent (p : ℚ) : ℚ := if p < 0 then 0 else if p > 100 then 100 else p

/-- The three ProgressManager calls a run is made of. -/
inductive POp where
  | start (s : ProcessStage)
  | update (p : ℚ)
  | complete

/-- One ProgressManager call (progressManager.ts, lines 426-463): the next
state together with the raw increment handed to `reportProgress` (the sink
receives `max 0` of it, line 515). `startStage` switches stage, resets its
recorded percentage and reports a literal zero without touching the
aggregate; `updateStageProgress` and `completeStage` record the clamped
(resp. forced-to-100) percentage, recompute the aggregate via
`calculateTotalProgress`, report the delta against the last reported
aggregate and remember the new aggregate as last reported. -/
def stepOp (st : ProgressState) : POp → ProgressState × ℚ
  | .start s =>
      (⟨s, setStage st.stageProgress s 0, st.totalProgress, st.lastReported⟩, 0)
  | .update p =>
      let sp := setStage st.stageProgress st.currentStage (clampPercent p)
      let tot := calculateTotalProgress sp
      (⟨st.currentStage, sp, tot, tot⟩, tot - st.lastReported)
  | .complete =>
      let sp := setStage st.stageProgress st.currentStage 100
      let tot := calculateTotalProgress sp
      (⟨st.currentStage, sp, tot, tot⟩, tot - st.lastReported)

/-- Run a call sequence, collecting for every call the raw increment and
the aggregate reached after the call. -/
def runOps (st : ProgressState) : List POp → ProgressState × List (ℚ × ℚ)
  | [] => (st, [])
  | op :: ops =>
      let first := stepOp st op
      let rest := runOps first.1 ops
      (rest.1, (first.2, first.1.totalProgress) :: rest.2)

/-- The increments the progress sink actually sees: `reportProgress`
clamps every increment at zero with `Math.max(0, increment)`. -/
def emitsOf (tr : List (ℚ × ℚ)) : List ℚ := tr.map (fun x => max 0 x.1)

/-- One stage of a well-ordered run: the stage is started, updated with a
sequence of percentages, and completed. -/
def stageOps (s : ProcessStage) (qs : List ℚ) : List POp :=
  .start s :: (qs.map POp.update ++ [.complete])

/-- A full pipeline run in declared stage order, ending when the terminal
stage completes; `us` gives each stage's update percentages. -/
def runPlan (us : ProcessStage → List ℚ) : List POp :=
  (stageList.map (fun s => stageOps s (us s))).flatten

/-- The state invariant ProgressManager maintains: the last reported
aggregate is the aggregate, the aggregate agrees with the recorded
per-stage percentages, and every recorded percentage lies in `[0, 100]`. -/
def WFP (st : ProgressState) : Prop :=
  st.lastReported = st.totalProgress ∧
  st.totalProgress = calculateTotalProgress st.stageProgress ∧
  ∀ s, 0 ≤ st.stageProgress s ∧ st.stageProgress s ≤ 100

theorem mem_sweepWorkspace {now maxAgeMs : Int}
    {l : List (String × FileHashEntry)} {p : String} {e : FileHashEntry} :
    (p, e) ∈ sweepWorkspace now maxAgeMs l ↔
      (p, e) ∈ l ∧ now - e.timestamp ≤ maxAgeMs := by
  simp [sweepWorkspace, List.mem_filter]

theorem entryMem_cleanup (now maxAgeMs : Int) (cache : FileHashCache)
    (w p : String) (e : FileHashEntry) :
    entryMem (cleanupFileHashCache now maxAgeMs cache).1 w p e ↔
      entryMem cache w p e ∧ now - e.timestamp ≤ maxAgeMs := by
  unfold cleanupFileHashCache entryMem
  constructor
  · rintro ⟨inner, hin, hpe⟩
    simp only [List.mem_filter, List.mem_map, decide_eq_true_eq] at hin
    obtain ⟨⟨⟨w0, inn0⟩, hw0, heq⟩, _⟩ := hin
    obtain ⟨hw, hinner⟩ := Prod.mk.injEq .. ▸ heq
    subst hw
    rw [← hinner] at hpe
    exact ⟨⟨inn0, hw0, (mem_sweepWorkspace.mp hpe).1⟩, (mem_sweepWorkspace.mp hpe).2⟩
  · rintro ⟨⟨inner, hin, hpe⟩, hf⟩
    have hmem : (p, e) ∈ sweepWorkspace now maxAgeMs inner :=
      mem_sweepWorkspace.mpr ⟨hpe, hf⟩
    refine ⟨sweepWorkspace now maxAgeMs inner, ?_, hmem⟩
    simp only [List.mem_filter, List.mem_map, decide_eq_true_eq]
    refine ⟨⟨(w, inner), hin, rfl⟩, ?_⟩
    intro hnil
    rw [hnil] at hmem
    exact (List.not_mem_nil _ hmem).elim

theorem removed_zero_all_fresh {now maxAgeMs : Int} {cache : FileHashCache}
    (h0 : (cleanupFileHashCache now maxAgeMs cache).2 = 0)
    {w p : String} {e : FileHashEntry} (hm : entryMem cache w p e) :
    now - e.timestamp ≤ maxAgeMs := by
  obtain ⟨inner, hin, hpe⟩ := hm
  unfold cleanupFileHashCache at h0
  have hall := List.sum_eq_zero_iff.mp h0
  have hlen : inner.length - (sweepWorkspace now maxAgeMs inner).length = 0 :=
    hall _ (List.mem_map.mpr ⟨(w, inner), hin, rfl⟩)
  have hle : inner.length ≤ (sweepWorkspace now maxAgeMs inner).length :=
    Nat.sub_eq_zero_iff_le.mp hlen
  have hsub : (sweepWorkspace now maxAgeMs inner).length ≤ inner.length :=
    (List.filter_sublist _).length_le
  have heq : sweepWorkspace now maxAgeMs inner = inner :=
    (List.filter_sublist _).eq_of_length (Nat.le_antisymm hsub hle)
  have := List.filter_eq_self.mp heq _ hpe
  simpa using this

/-- Claim C1: `hasFileChanged` returns `true` exactly when the pair has no
cache entry, or the digest computation fails, or the computed digest
differs from the stored one; it returns `false` only on an exact match. -/
theorem hasFileChanged_iff_change (hash : String → String)
    (disk : String → Option String) (cache : FileHashCache)
    (workspaceId filePath : String) (content : Option String) :
    (hasFileChanged hash disk cache workspaceId filePath content = true ↔
      lookupEntry cache workspaceId filePath = none ∨
      calculateFileHash hash disk filePath content = none ∨
      (∃ e h, lookupEntry cache workspaceId filePath = some e ∧
        calculateFileHash hash disk filePath content = some h ∧ h ≠ e.hash)) ∧
    (hasFileChanged hash disk cache workspaceId filePath content = false ↔
      ∃ e h, lookupEntry cache workspaceId filePath = some e ∧
        calculateFileHash hash disk filePath content = some h ∧ h = e.hash) := by
  unfold hasFileChanged hasFileChangedR calculateFileHash
  rcases hL : lookupEntry cache workspaceId filePath with _ | e
  · simp
  · rcases hC : calculateFileHashR hash disk filePath content with ⟨_ | hv, r⟩
    · simp
    · constructor
      · simp only [bne_iff_ne, ne_eq, decide_eq_true_eq]
        constructor
        · intro hne
          exact Or.inr (Or.inr ⟨e, hv, rfl, rfl, hne⟩)
        · rintro (h | h | ⟨e2, h2, he2, hh2, hne⟩)
          · exact absurd h (by simp)
          · exact absurd h (by simp)
          · cases he2; cases hh2; exact hne
      · simp only [bne_eq_false_iff_eq]
        constructor
        · intro heq
          exact ⟨e, hv, rfl, rfl, heq⟩
        · rintro ⟨e2, h2, he2, hh2, heq⟩
          cases he2; cases hh2; exact heq

/-- Claim C9: supplying the empty string as `content` behaves exactly as
supplying no content at all, for digest computation, change detection and
digest recording: `content || await fs.readFile(path)` treats the empty
string as falsy and reads the file from disk. -/
theorem emptyContent_same_as_missing (hash : String → String)
    (disk : String → Option String) (now : Int) (cache : FileHashCache)
    (workspaceId filePath : String) :
    calculateFileHash hash disk filePath (some "") =
      calculateFileHash hash disk filePath none ∧
    hasFileChanged hash disk cache workspaceId filePath (some "") =
      hasFileChanged hash disk cache workspaceId filePath none ∧
    updateFileHash hash disk now cache workspaceId filePath (some "") =
      updateFileHash hash disk now cache workspaceId filePath none :=
  ⟨rfl, rfl, rfl⟩

/-- Claim C8: load never propagates an error — a missing cache file, a file
of only whitespace, and content that `JSON.parse` rejects all resolve to
the empty document. -/
theorem readFileHashCache_never_fails (initialized : Bool)
    (fileState : Option String) (parse : String → Option FileHashCache)
    (h : fileState = none ∨
      (∃ d, fileState = some d ∧ isBlank d = true) ∨
      (∃ d, fileState = some d ∧ parse d = none)) :
    readFileHashCache initialized fileState parse = [] := by
  unfold readFileHashCache
  cases initialized with
  | false => simp
  | true =>
    rcases h with rfl | ⟨d, rfl, hb⟩ | ⟨d, rfl, hp⟩
    · simp
    · simp [hb]
    · simp [hp]

theorem readFileHashCache_never_fails_witness :
    readFileHashCache true none (fun _ => none) = [] :=
  readFileHashCache_never_fails true none (fun _ => none) (Or.inl rfl)

/-- Claim C3 as stated is refuted by a pre-existing empty workspace: with
document `[("w", {})]` nothing is stale, so `entriesRemoved = 0`, no save
is performed, and the persisted document still carries the workspace key
`"w"` with an empty inner mapping. -/
theorem sweep_keeps_preexisting_empty_workspace :
    (sweepPersisted 0 0 [(("w"), [])]).1 =
        [(("w"), ([] : List (String × FileHashEntry)))] ∧
    (sweepPersisted 0 0 [(("w"), [])]).2 = false ∧
    ¬ (∀ wi ∈ (sweepPersisted 0 0 [(("w"), [])]).1, wi.2 ≠ []) := by
  refine ⟨rfl, rfl, ?_⟩
  intro h
  exact h (("w"), []) (by decide) rfl

/-- Claim C3 (amended): after `sweep(maxAge)`, an entry occurs in the
persisted document exactly when it occurred before and satisfies
`now - lastSeen ≤ maxAge`; a save is performed exactly when at least one
entry was removed; whenever a save was performed the persisted document has
no workspace key with an empty inner mapping; and when nothing was removed
the previously persisted document (which may already contain empty
workspace keys) is kept verbatim. -/
theorem sweep_characterization (now maxAgeMs : Int) (cache : FileHashCache) :
    (∀ w p e, entryMem (sweepPersisted now maxAgeMs cache).1 w p e ↔
        entryMem cache w p e ∧ now - e.timestamp ≤ maxAgeMs) ∧
    ((sweepPersisted now maxAgeMs cache).2 = true ↔
        0 < (cleanupFileHashCache now maxAgeMs cache).2) ∧
    (0 < (cleanupFileHashCache now maxAgeMs cache).2 →
        ∀ wi ∈ (sweepPersisted now maxAgeMs cache).1, wi.2 ≠ []) ∧
    ((cleanupFileHashCache now maxAgeMs cache).2 = 0 →
        (sweepPersisted now maxAgeMs cache).1 = cache) := by
  by_cases hrem : 0 < (cleanupFileHashCache now maxAgeMs cache).2
  · have hpair : sweepPersisted now maxAgeMs cache =
        ((cleanupFileHashCache now maxAgeMs cache).1, true) := by
      unfold sweepPersisted
      rw [if_pos hrem]
    rw [hpair]
    refine ⟨fun w p e => entryMem_cleanup now maxAgeMs cache w p e,
      by simp [hrem], ?_, fun h0 => absurd hrem (by omega)⟩
    intro _ wi hwi
    unfold cleanupFileHashCache at hwi
    simpa using (List.mem_filter.mp hwi).2
  · have hpair : sweepPersisted now maxAgeMs cache = (cache, false) := by
      unfold sweepPersisted
      rw [if_neg hrem]
    have h0 : (cleanupFileHashCache now maxAgeMs cache).2 = 0 := by omega
    rw [hpair]
    refine ⟨?_, by simp [hrem], fun h => absurd h hrem, fun _ => rfl⟩
    intro w p e
    constructor
    · intro hm
      exact ⟨hm, removed_zero_all_fresh h0 hm⟩
    · exact fun hm => hm.1

theorem sweep_characterization_witness :
    entryMem
        (sweepPersisted 100 10
          [(("w"), [(("fresh"), ⟨("h1"), 95⟩), (("stale"), ⟨("h2"), 0⟩)])]).1
        ("w") ("fresh") ⟨("h1"), 95⟩ ∧
    ¬ entryMem
        (sweepPersisted 100 10
          [(("w"), [(("fresh"), ⟨("h1"), 95⟩), (("stale"), ⟨("h2"), 0⟩)])]).1
        ("w") ("stale") ⟨("h2"), 0⟩ := by
  have h := sweep_characterization 100 10
    [(("w"), [(("fresh"), ⟨("h1"), 95⟩), (("stale"), ⟨("h2"), 0⟩)])]
  constructor
  · exact (h.1 ("w") ("fresh") ⟨("h1"), 95⟩).mpr
      ⟨⟨[(("fresh"), ⟨("h1"), 95⟩), (("stale"), ⟨("h2"), 0⟩)], by simp, by simp⟩, by norm_num⟩
  · intro hm
    have := ((h.1 ("w") ("stale") ⟨("h2"), 0⟩).mp hm).2
    norm_num at this

theorem isExcluded_of_ignored (g : String → Bool) (mm : String → String → Bool)
    (excludePatterns : Option (List String)) (relPath : String)
    (h : g relPath = true) :
    isExcluded (some g) mm excludePatterns relPath = true := by
  simp [isExcluded, h]

mutual
theorem collectEntry_not_ignored (g : String → Bool) (mm : String → String → Bool)
    (excludePatterns includePatterns : Option (List String)) (useRel : Bool)
    (e : FSEntry) (pabs prel : String) (pr : String × String)
    (h : pr ∈ collectEntry (some g) mm excludePatterns includePatterns useRel
      e pabs prel) :
    g pr.2 = false := by
  cases e with
  | file name =>
    by_cases hex : isExcluded (some g) mm excludePatterns
        (entryRel useRel pabs prel name) = true
    · simp [collectEntry, hex] at h
    · rw [Bool.not_eq_true] at hex
      by_cases hinc : isIncluded mm includePatterns
          (entryRel useRel pabs prel name) = true
      · simp [collectEntry, hex, hinc] at h
        subst h
        show g (entryRel useRel pabs prel name) = false
        by_contra hg
        rw [Bool.not_eq_false] at hg
        rw [isExcluded_of_ignored g mm excludePatterns _ hg] at hex
        exact Bool.true_eq_false ▸ hex
      · rw [Bool.not_eq_true] at hinc
        simp [collectEntry, hex, hinc] at h
  | dir name children =>
    by_cases hex : isExcluded (some g) mm excludePatterns
        (entryRel useRel pabs prel name) = true
    · simp [collectEntry, hex] at h
    · rw [Bool.not_eq_true] at hex
      simp only [collectEntry, hex, if_false, Bool.false_eq_true] at h
      exact collectEntries_not_ignored g mm excludePatterns includePatterns
        useRel children (joinPath pabs name) (joinPath prel name) pr h
theorem collectEntries_not_ignored (g : String → Bool) (mm : String → String → Bool)
    (excludePatterns includePatterns : Option (List String)) (useRel : Bool)
    (es : FSList) (pabs prel : String) (pr : String × String)
    (h : pr ∈ collectEntries (some g) mm excludePatterns includePatterns useRel
      es pabs prel) :
    g pr.2 = false := by
  cases es with
  | nil => simp [collectEntries] at h
  | cons e es =>
    rw [collectEntries, List.mem_append] at h
    rcases h with h | h
    · exact collectEntry_not_ignored g mm excludePatterns includePatterns
        useRel e pabs prel pr h
    · exact collectEntries_not_ignored g mm excludePatterns includePatterns
        useRel es pabs prel pr h
end

/-- Claim C6: ignore rules take precedence over inclusion globs — every
candidate the path-collection pass produces has a matched path the ignore
rules reject, so a path matched by an ignore rule never reaches the
candidate list even when an inclusion glob also matches it. -/
theorem ignored_path_never_candidate (g : String → Bool)
    (mm : String → String → Bool)
    (excludePatterns includePatterns : Option (List String)) (useRel : Bool)
    (root : String) (entries : FSList) (pr : String × String)
    (h : pr ∈ collectFilePaths (some g) mm excludePatterns includePatterns
      useRel root entries) :
    g pr.2 = false :=
  collectEntries_not_ignored g mm excludePatterns includePatterns useRel
    entries root ("") pr h

theorem ignored_path_never_candidate_witness :
    (fun r => r == ("b.txt")) ("a.txt") = false :=
  ignored_path_never_candidate (fun r => r == ("b.txt")) (fun _ _ => true)
    none (some [("*")]) true ("root")
    (.cons (.file ("a.txt")) (.cons (.file ("b.txt")) .nil))
    ((("root/a.txt"), ("a.txt"))) (by decide)

/-- Claim C7: an excluded directory is pruned whole — the collection pass
emits no candidate from anywhere beneath a directory entry whose matched
path an ignore rule or an exclusion glob excludes, whatever its subtree
contains and whatever the inclusion globs would match inside it. -/
theorem excluded_directory_pruned (ig : Option (String → Bool))
    (mm : String → String → Bool)
    (excludePatterns includePatterns : Option (List String)) (useRel : Bool)
    (name : String) (children : FSList) (pabs prel : String)
    (h : isExcluded ig mm excludePatterns (entryRel useRel pabs prel name) = true) :
    collectEntry ig mm excludePatterns includePatterns useRel
      (.dir name children) pabs prel = [] := by
  simp [collectEntry, h]

theorem excluded_directory_pruned_witness :
    collectEntry (some (fun r => r == ("node_modules"))) (fun _ _ => true)
      none (some [("*")]) true
      (.dir ("node_modules") (.cons (.file ("x.js")) .nil)) ("root") ("") = [] :=
  excluded_directory_pruned (some (fun r => r == ("node_modules")))
    (fun _ _ => true) none (some [("*")]) true ("node_modules")
    (.cons (.file ("x.js")) .nil) ("root") ("") (by decide)

/-- Claim C4: when the crawl of an existing root directory yields zero
eligible files, `FetchRepoNode.exec` fails with the no-files error — the
spec's EmptyResultError — instead of returning an empty result. -/
theorem empty_crawl_result_is_error (hash : String → String)
    (disk : String → Option String) (size : String → Nat)
    (ig : Option (String → Bool)) (mm : String → String → Bool)
    (localDir : String) (entries : FSList)
    (includePatterns excludePatterns : Option (List String))
    (maxFileSize : Option Nat) (now : Int) (cache : FileHashCache)
    (h : (crawlLocalFilesAsync hash disk size ig mm localDir entries
      includePatterns excludePatterns maxFileSize true false none now
      cache).1.files = []) :
    fetchRepoExec hash disk size ig mm localDir entries includePatterns
      excludePatterns maxFileSize false now cache =
      .error (.noFilesFound localDir) := by
  unfold fetchRepoExec
  simp [h]

theorem empty_crawl_result_is_error_witness :
    fetchRepoExec (fun s => s) (fun _ => none) (fun _ => 0) none
      (fun _ _ => true) ("root") .nil none none none false 0 [] =
      .error (.noFilesFound ("root")) :=
  empty_crawl_result_is_error (fun s => s) (fun _ => none) (fun _ => 0) none
    (fun _ _ => true) ("root") .nil none none none 0 [] (by decide)

/-- Claim C2 as stated is refuted on concrete inputs: the digest check
calls `hasFileChanged` without the file content, so it reads the candidate
from disk itself. With the identity digest and content `a` on disk, a file
whose cache entry already holds the digest of `a` is determined unchanged
yet costs one disk read, not zero; and with a stale cached digest `b` the
file is read twice — once by the digest check and once for the emitted
record — not once. -/
theorem incremental_single_read_counterexample :
    processOneFile (fun s => s) (fun _ => some ("a")) (fun _ => 1) none 5 true
        ("w") [(("w"), [(("f"), ⟨("a"), 0⟩)])] ((("f"), ("f"))) =
      (none, [(("w"), [(("f"), ⟨("a"), 0⟩)])], 1, 1) ∧
    (1 : Nat) ≠ 0 ∧
    processOneFile (fun s => s) (fun _ => some ("a")) (fun _ => 1) none 5 true
        ("w") [(("w"), [(("f"), ⟨("b"), 0⟩)])] ((("f"), ("f"))) =
      (some ⟨("f"), ("a")⟩, [(("w"), [(("f"), ⟨("a"), 5⟩)])], 0, 2) ∧
    (2 : Nat) > 1 :=
  ⟨by decide, by decide, by decide, by decide⟩

/-- Claim C2 (amended): in an incremental crawl, for a candidate that
passes the size gate, has a cache entry, and whose on-disk content is
non-empty, the digest check itself costs one disk read; a file determined
unchanged is read exactly once (for the digest) and emits nothing, leaving
the cache untouched; a changed file is read exactly twice — once for the
digest check and once for the emitted record — and the content of that
second read is both the emitted record's content and the content whose
digest is recorded in the cache, with no further read. -/
theorem incremental_read_counts (hash : String → String)
    (disk : String → Option String) (size : String → Nat)
    (maxFileSize : Option Nat) (now : Int) (workspaceId : String)
    (cache : FileHashCache) (p rel c : String) (e : FileHashEntry)
    (hsz : exceedsMaxSize size maxFileSize p = false)
    (hdisk : disk p = some c) (hne : c ≠ "")
    (hent : lookupEntry cache workspaceId p = some e) :
    (hash c = e.hash →
      processOneFile hash disk size maxFileSize now true workspaceId cache
        (p, rel) = (none, cache, 1, 1)) ∧
    (hash c ≠ e.hash →
      processOneFile hash disk size maxFileSize now true workspaceId cache
        (p, rel) =
        (some ⟨rel, c⟩,
         ainsert cache workspaceId
           (ainsert ((List.lookup workspaceId cache).getD []) p ⟨hash c, now⟩),
         0, 2)) := by
  constructor
  · intro heq
    simp [processOneFile, hsz, hasFileChangedR, hent, calculateFileHashR,
      hdisk, heq]
  · intro hneq
    have hb : (hash c != e.hash) = true := bne_iff_ne.mpr hneq
    simp [processOneFile, hsz, hasFileChangedR, hent, calculateFileHashR,
      hdisk, hne, hb, updateFileHashR]

theorem incremental_read_counts_witness :
    processOneFile (fun s => s) (fun _ => some ("a")) (fun _ => 1) none 7 true
        ("w") [(("w"), [(("f"), ⟨("a"), 0⟩)])] ((("f"), ("g"))) =
      (none, [(("w"), [(("f"), ⟨("a"), 0⟩)])], 1, 1) :=
  (incremental_read_counts (fun s => s) (fun _ => some ("a")) (fun _ => 1)
    none 7 ("w") [(("w"), [(("f"), ⟨("a"), 0⟩)])] ("f") ("g") ("a")
    ⟨("a"), 0⟩ rfl rfl (by decide) rfl).1 rfl

/-- Claim C10: whatever the call sequence — even one that violates the
declared stage order or lowers a stage's percentage — every increment the
progress sink receives is non-negative, because the reporting path clamps
the increment at zero. -/
theorem reported_increments_nonneg (st : ProgressState) (ops : List POp)
    (e : ℚ) (he : e ∈ emitsOf (runOps st ops).2) : 0 ≤ e := by
  obtain ⟨x, _, rfl⟩ := List.mem_map.mp he
  exact le_max_left 0 x.1

theorem reported_increments_nonneg_witness :
    0 ≤ max 0 (stepOp resetState POp.complete).2 :=
  reported_increments_nonneg resetState [POp.complete] _
    (by simp [emitsOf, runOps])

theorem STAGE_WEIGHTS_nonneg (s : ProcessStage) : 0 ≤ STAGE_WEIGHTS s := by
  cases s <;> norm_num [STAGE_WEIGHTS]

theorem totalWeight_eq_100 :
    (stageList.map (fun s => STAGE_WEIGHTS s)).sum = 100 := by
  norm_num [stageList, STAGE_WEIGHTS]

theorem calcTotal_mono {f g : ProcessStage → ℚ} (h : ∀ s, f s ≤ g s) :
    calculateTotalProgress f ≤ calculateTotalProgress g := by
  unfold calculateTotalProgress
  rw [totalWeight_eq_100]
  have hsum : (stageList.map (fun s => f s / 100 * STAGE_WEIGHTS s)).sum ≤
      (stageList.map (fun s => g s / 100 * STAGE_WEIGHTS s)).sum := by
    refine List.sum_le_sum (fun s _ => ?_)
    have hw := STAGE_WEIGHTS_nonneg s
    have hfg := h s
    have : f s / 100 ≤ g s / 100 := by linarith
    exact mul_le_mul_of_nonneg_right this hw
  have h100 : (100 : ℚ) ≠ 0 := by norm_num
  rw [div_mul_cancel₀ _ h100, div_mul_cancel₀ _ h100]
  exact hsum

theorem calcTotal_congr {f g : ProcessStage → ℚ} (h : ∀ s, f s = g s) :
    calculateTotalProgress f = calculateTotalProgress g := by
  rw [funext h]

theorem calcTotal_const0 : calculateTotalProgress (fun _ => 0) = 0 := by
  norm_num [calculateTotalProgress, stageList, STAGE_WEIGHTS]

theorem calcTotal_const100 : calculateTotalProgress (fun _ => 100) = 100 := by
  norm_num [calculateTotalProgress, stageList, STAGE_WEIGHTS]

theorem clampPercent_nonneg (p : ℚ) : 0 ≤ clampPercent p := by
  unfold clampPercent
  split_ifs <;> linarith

theorem clampPercent_le_100 (p : ℚ) : clampPercent p ≤ 100 := by
  unfold clampPercent
  split_ifs <;> linarith

theorem setStage_same (sp : ProcessStage → ℚ) (s : ProcessStage) (v : ℚ) :
    setStage sp s v s = v := by
  simp [setStage]

theorem setStage_other (sp : ProcessStage → ℚ) (s t : ProcessStage) (v : ℚ)
    (h : t ≠ s) : setStage sp s v t = sp t := by
  simp [setStage, h]

theorem setStage_self (sp : ProcessStage → ℚ) (s : ProcessStage)
    (h : sp s = 0) : setStage sp s 0 = sp := by
  funext t
  by_cases ht : t = s
  · rw [ht, setStage_same, h]
  · rw [setStage_other sp s t 0 ht]

theorem runOps_append (st : ProgressState) (l1 l2 : List POp) :
    runOps st (l1 ++ l2) =
      ((runOps (runOps st l1).1 l2).1,
       (runOps st l1).2 ++ (runOps (runOps st l1).1 l2).2) := by
  induction l1 generalizing st with
  | nil => simp [runOps]
  | cons op ops ih => simp [runOps, ih]

theorem runOps_generic (ops : List POp) (st : ProgressState)
    (hlr : st.lastReported = st.totalProgress) :
    (runOps st ops).1.lastReported = (runOps st ops).1.totalProgress ∧
    ((runOps st ops).2.map Prod.fst).sum =
      (runOps st ops).1.totalProgress - st.totalProgress ∧
    ((∀ x ∈ (runOps st ops).2, 0 ≤ x.1) →
      List.Chain' (· ≤ ·)
        (st.totalProgress :: (runOps st ops).2.map Prod.snd)) := by
  induction ops generalizing st with
  | nil => exact ⟨hlr, by simp [runOps], fun _ => by simp [runOps]⟩
  | cons op ops ih =>
    have h1 : (stepOp st op).1.lastReported = (stepOp st op).1.totalProgress := by
      cases op <;> simp [stepOp, hlr]
    have h2 : (stepOp st op).1.totalProgress =
        st.totalProgress + (stepOp st op).2 := by
      cases op <;> simp [stepOp, hlr]
    obtain ⟨ihlr, ihsum, ihch⟩ := ih (stepOp st op).1 h1
    simp only [runOps, List.map_cons, List.sum_cons, List.mem_cons]
    refine ⟨ihlr, ?_, ?_⟩
    · rw [ihsum]
      linarith [h2]
    · intro hraws
      have hraw0 : 0 ≤ (stepOp st op).2 := hraws _ (Or.inl rfl)
      rw [List.chain'_cons]
      exact ⟨by linarith [h2], ihch (fun x hx => hraws x (Or.inr hx))⟩

theorem run_updates_raws (qs : List ℚ) (st : ProgressState) (hwf : WFP st)
    (hch : List.Chain' (· ≤ ·)
      (st.stageProgress st.currentStage :: qs.map clampPercent)) :
    WFP (runOps st (qs.map POp.update)).1 ∧
    (runOps st (qs.map POp.update)).1.currentStage = st.currentStage ∧
    (∀ t, t ≠ st.currentStage →
      (runOps st (qs.map POp.update)).1.stageProgress t = st.stageProgress t) ∧
    ∀ x ∈ (runOps st (qs.map POp.update)).2, 0 ≤ x.1 := by
  induction qs generalizing st with
  | nil => exact ⟨hwf, rfl, fun t _ => rfl, by simp [runOps]⟩
  | cons q qs ih =>
    obtain ⟨hlr, htot, hbounds⟩ := hwf
    have hch2 : List.Chain' (· ≤ ·)
        (st.stageProgress st.currentStage ::
          clampPercent q :: qs.map clampPercent) := by
      simpa using hch
    have hhead := (List.chain'_cons.mp hch2).1
    have htail := (List.chain'_cons.mp hch2).2
    have hsp1 : (stepOp st (POp.update q)).1.stageProgress =
        setStage st.stageProgress st.currentStage (clampPercent q) := rfl
    have hcur1 : (stepOp st (POp.update q)).1.currentStage =
        st.currentStage := rfl
    have hwf1 : WFP (stepOp st (POp.update q)).1 := by
      refine ⟨rfl, rfl, fun t => ?_⟩
      rw [hsp1]
      by_cases ht : t = st.currentStage
      · rw [ht, setStage_same]
        exact ⟨clampPercent_nonneg q, clampPercent_le_100 q⟩
      · rw [setStage_other _ _ _ _ ht]
        exact hbounds t
    have hmono : calculateTotalProgress st.stageProgress ≤
        calculateTotalProgress
          (setStage st.stageProgress st.currentStage (clampPercent q)) := by
      refine calcTotal_mono (fun t => ?_)
      by_cases ht : t = st.currentStage
      · rw [ht, setStage_same]
        exact hhead
      · rw [setStage_other _ _ _ _ ht]
    have hraw : 0 ≤ (stepOp st (POp.update q)).2 := by
      have hre : (stepOp st (POp.update q)).2 =
          calculateTotalProgress
            (setStage st.stageProgress st.currentStage (clampPercent q)) -
            st.lastReported := rfl
      rw [hre, hlr, htot]
      linarith
    have hch1 : List.Chain' (· ≤ ·)
        ((stepOp st (POp.update q)).1.stageProgress
          (stepOp st (POp.update q)).1.currentStage :: qs.map clampPercent) := by
      rw [hcur1, hsp1, setStage_same]
      exact htail
    obtain ⟨ihwf, ihcur, ihsp, ihraws⟩ := ih (stepOp st (POp.update q)).1 hwf1 hch1
    simp only [List.map_cons, runOps, List.mem_cons]
    refine ⟨ihwf, ihcur.trans hcur1, ?_, ?_⟩
    · intro t ht
      have h1 := ihsp t (by rw [hcur1]; exact ht)
      rw [h1, hsp1, setStage_other _ _ _ _ ht]
    · rintro x (rfl | hx)
      · exact hraw
      · exact ihraws x hx

theorem run_block_raws (s : ProcessStage) (qs : List ℚ) (st : ProgressState)
    (hwf : WFP st) (h0 : st.stageProgress s = 0)
    (hch : List.Chain' (· ≤ ·) (qs.map clampPercent)) :
    WFP (runOps st (stageOps s qs)).1 ∧
    (runOps st (stageOps s qs)).1.stageProgress s = 100 ∧
    (∀ t, t ≠ s →
      (runOps st (stageOps s qs)).1.stageProgress t = st.stageProgress t) ∧
    ∀ x ∈ (runOps st (stageOps s qs)).2, 0 ≤ x.1 := by
  obtain ⟨hlr, htot, hbounds⟩ := hwf
  have hstep : stepOp st (POp.start s) =
      (⟨s, st.stageProgress, st.totalProgress, st.lastReported⟩, 0) := by
    simp [stepOp, setStage_self st.stageProgress s h0]
  have hwf1 : WFP (⟨s, st.stageProgress, st.totalProgress,
      st.lastReported⟩ : ProgressState) := ⟨hlr, htot, hbounds⟩
  have hch1 : List.Chain' (· ≤ ·)
      ((⟨s, st.stageProgress, st.totalProgress,
        st.lastReported⟩ : ProgressState).stageProgress
        (⟨s, st.stageProgress, st.totalProgress,
          st.lastReported⟩ : ProgressState).currentStage ::
        qs.map clampPercent) := by
    show List.Chain' (· ≤ ·) (st.stageProgress s :: qs.map clampPercent)
    rw [h0]
    refine List.chain'_cons'.mpr ⟨?_, hch⟩
    cases qs with
    | nil => simp
    | cons q qs2 => simpa using clampPercent_nonneg q
  obtain ⟨hwfA, hcurA, hspA, hrawsA⟩ :=
    run_updates_raws qs
      (⟨s, st.stageProgress, st.totalProgress, st.lastReported⟩ : ProgressState)
      hwf1 hch1
  obtain ⟨hlrA, htotA, hboundsA⟩ := hwfA
  -- complete step on the state after the updates
  have hmonoC : calculateTotalProgress
      (runOps (⟨s, st.stageProgress, st.totalProgress,
        st.lastReported⟩ : ProgressState) (qs.map POp.update)).1.stageProgress ≤
      calculateTotalProgress
        (setStage (runOps (⟨s, st.stageProgress, st.totalProgress,
          st.lastReported⟩ : ProgressState) (qs.map POp.update)).1.stageProgress
          (runOps (⟨s, st.stageProgress, st.totalProgress,
            st.lastReported⟩ : ProgressState)
              (qs.map POp.update)).1.currentStage 100) := by
    refine calcTotal_mono (fun t => ?_)
    by_cases ht : t = (runOps (⟨s, st.stageProgress, st.totalProgress,
        st.lastReported⟩ : ProgressState) (qs.map POp.update)).1.currentStage
    · rw [ht, setStage_same]
      exact (hboundsA _).2
    · rw [setStage_other _ _ _ _ ht]
  have hrawC : 0 ≤ (stepOp (runOps (⟨s, st.stageProgress, st.totalProgress,
      st.lastReported⟩ : ProgressState) (qs.map POp.update)).1 POp.complete).2 := by
    have hre : (stepOp (runOps (⟨s, st.stageProgress, st.totalProgress,
        st.lastReported⟩ : ProgressState) (qs.map POp.update)).1 POp.complete).2 =
        calculateTotalProgress
          (setStage (runOps (⟨s, st.stageProgress, st.totalProgress,
            st.lastReported⟩ : ProgressState) (qs.map POp.update)).1.stageProgress
            (runOps (⟨s, st.stageProgress, st.totalProgress,
              st.lastReported⟩ : ProgressState)
                (qs.map POp.update)).1.currentStage 100) -
          (runOps (⟨s, st.stageProgress, st.totalProgress,
            st.lastReported⟩ : ProgressState)
              (qs.map POp.update)).1.lastReported := rfl
    rw [hre, hlrA, htotA]
    linarith
  have hwfC : WFP (stepOp (runOps (⟨s, st.stageProgress, st.totalProgress,
      st.lastReported⟩ : ProgressState) (qs.map POp.update)).1 POp.complete).1 := by
    refine ⟨rfl, rfl, fun t => ?_⟩
    show 0 ≤ setStage _ _ 100 t ∧ setStage _ _ 100 t ≤ 100
    by_cases ht : t = (runOps (⟨s, st.stageProgress, st.totalProgress,
        st.lastReported⟩ : ProgressState) (qs.map POp.update)).1.currentStage
    · rw [ht, setStage_same]
      norm_num
    · rw [setStage_other _ _ _ _ ht]
      exact hboundsA t
  -- expose the shape of the whole block run
  have hshape : runOps st (stageOps s qs) =
      ((stepOp (runOps (⟨s, st.stageProgress, st.totalProgress,
          st.lastReported⟩ : ProgressState) (qs.map POp.update)).1 POp.complete).1,
       (0, st.totalProgress) ::
         ((runOps (⟨s, st.stageProgress, st.totalProgress,
             st.lastReported⟩ : ProgressState) (qs.map POp.update)).2 ++
          [((stepOp (runOps (⟨s, st.stageProgress, st.totalProgress,
              st.lastReported⟩ : ProgressState) (qs.map POp.update)).1
              POp.complete).2,
            (stepOp (runOps (⟨s, st.stageProgress, st.totalProgress,
              st.lastReported⟩ : ProgressState) (qs.map POp.update)).1
              POp.complete).1.totalProgress)])) := by
    show runOps st (POp.start s :: (qs.map POp.update ++ [POp.complete])) = _
    simp only [runOps, hstep, runOps_append]
  rw [hshape]
  refine ⟨hwfC, ?_, ?_, ?_⟩
  · show setStage _ _ 100 s = 100
    rw [hcurA]
    exact setStage_same _ _ _
  · intro t ht
    show setStage _ _ 100 t = st.stageProgress t
    rw [hcurA]
    rw [setStage_other _ _ _ _ ht]
    exact hspA t ht
  · intro x hx
    rcases List.mem_cons.mp hx with rfl | hx1
    · exact le_refl 0
    · rcases List.mem_append.mp hx1 with hx2 | hx2
      · exact hrawsA x hx2
      · rw [List.mem_singleton.mp hx2]
        exact hrawC

theorem stageList_nodup : stageList.Nodup := by decide

theorem mem_stageList (s : ProcessStage) : s ∈ stageList := by
  cases s <;> decide

theorem run_blocks_raws (rest : List ProcessStage) (us : ProcessStage → List ℚ)
    (hch : ∀ s, List.Chain' (· ≤ ·) ((us s).map clampPercent))
    (st : ProgressState) (hwf : WFP st) (hnd : rest.Nodup)
    (h0 : ∀ s ∈ rest, st.stageProgress s = 0) :
    WFP (runOps st ((rest.map (fun s => stageOps s (us s))).flatten)).1 ∧
    (∀ s ∈ rest,
      (runOps st ((rest.map (fun s => stageOps s (us s))).flatten)).1.stageProgress
        s = 100) ∧
    (∀ t, t ∉ rest →
      (runOps st ((rest.map (fun s => stageOps s (us s))).flatten)).1.stageProgress
        t = st.stageProgress t) ∧
    ∀ x ∈ (runOps st ((rest.map (fun s => stageOps s (us s))).flatten)).2,
      0 ≤ x.1 := by
  induction rest generalizing st with
  | nil => exact ⟨hwf, by simp, fun t _ => rfl, by simp [runOps]⟩
  | cons s rest ih =>
    have hnd' := List.nodup_cons.mp hnd
    obtain ⟨hwfB, hs100, hspB, hrawsB⟩ :=
      run_block_raws s (us s) st hwf (h0 s (List.mem_cons_self s rest)) (hch s)
    obtain ⟨hwfF, h100F, hspF, hrawsF⟩ :=
      ih (runOps st (stageOps s (us s))).1 hwfB hnd'.2
        (fun t htm => by
          rw [hspB t (fun he => hnd'.1 (he ▸ htm))]
          exact h0 t (List.mem_cons_of_mem s htm))
    simp only [List.map_cons, List.flatten_cons]
    rw [runOps_append]
    refine ⟨hwfF, ?_, ?_, ?_⟩
    · intro t htm
      rcases List.mem_cons.mp htm with rfl | htm2
      · exact (hspF t hnd'.1).trans hs100
      · exact h100F t htm2
    · intro t htm
      have hts : t ≠ s := fun he => htm (he ▸ List.mem_cons_self s rest)
      have htr : t ∉ rest := fun c => htm (List.mem_cons_of_mem s c)
      exact (hspF t htr).trans (hspB t hts)
    · intro x hx
      rcases List.mem_append.mp hx with hx1 | hx1
      · exact hrawsB x hx1
      · exact hrawsF x hx1

/-- Claim C5: for a run that follows the declared stage order — every stage
started, updated with percentages whose clamped values never decrease
within the stage, and completed, ending with the terminal Completed stage —
the aggregate is non-decreasing from 0, every increment the sink receives
is exactly the delta `newAggregate - lastReportedAggregate` (the reporting
clamp never alters it), and the emitted increments sum to exactly 100 once
the terminal stage completes. -/
theorem progress_monotone_exact_and_complete (us : ProcessStage → List ℚ)
    (hch : ∀ s, List.Chain' (· ≤ ·) ((us s).map clampPercent)) :
    List.Chain' (· ≤ ·)
      ((0 : ℚ) :: (runOps resetState (runPlan us)).2.map Prod.snd) ∧
    emitsOf (runOps resetState (runPlan us)).2 =
      (runOps resetState (runPlan us)).2.map Prod.fst ∧
    (emitsOf (runOps resetState (runPlan us)).2).sum = 100 := by
  unfold runPlan
  have hwf0 : WFP resetState :=
    ⟨rfl, calcTotal_const0.symm, fun s => ⟨le_refl 0, (by norm_num : (0 : ℚ) ≤ 100)⟩⟩
  obtain ⟨hwfF, h100, hothers, hraws⟩ :=
    run_blocks_raws stageList us hch resetState hwf0 stageList_nodup
      (fun s _ => rfl)
  obtain ⟨hlrF, hsum, hchF⟩ :=
    runOps_generic ((stageList.map (fun s => stageOps s (us s))).flatten)
      resetState rfl
  have hemits : emitsOf
      (runOps resetState
        ((stageList.map (fun s => stageOps s (us s))).flatten)).2 =
      (runOps resetState
        ((stageList.map (fun s => stageOps s (us s))).flatten)).2.map
        Prod.fst := by
    unfold emitsOf
    exact List.map_congr_left (fun x hx => max_eq_right (hraws x hx))
  have hfinTot : (runOps resetState
      ((stageList.map (fun s => stageOps s (us s))).flatten)).1.totalProgress =
      100 := by
    rw [hwfF.2.1, calcTotal_congr (fun s => h100 s (mem_stageList s)),
      calcTotal_const100]
  refine ⟨hchF hraws, hemits, ?_⟩
  rw [hemits, hsum, hfinTot]
  norm_num [resetState]

theorem progress_monotone_exact_and_complete_witness :
    List.Chain' (· ≤ ·)
      ((0 : ℚ) ::
        (runOps resetState (runPlan (fun _ => []))).2.map Prod.snd) ∧
    emitsOf (runOps resetState (runPlan (fun _ => []))).2 =
      (runOps resetState (runPlan (fun _ => []))).2.map Prod.fst ∧
    (emitsOf (runOps resetState (runPlan (fun _ => []))).2).sum = 100 :=
  progress_monotone_exact_and_complete (fun _ => [])
    (fun _ => List.chain'_nil)
